import Mathlib

/-!
Verification of the upgradable_defi repository against its specification.

The frontend lending helpers (src/frontend/src/lending/utils.ts and
src/frontend/src/lending/services/api.ts) are embedded shallowly:
JavaScript numbers are modelled as rationals plus explicit non-finite
values (`JsNum`), optional/nullable fields as `Option`, and objects as
structures.  The backend (Event Store, Indexer Loop, Accounting Engine)
has no source under src/ (only its README is present), so those parts
are modelled from the spec, as marked on each definition.
-/

namespace Defi

/-- A JavaScript number: either a finite value (modelled as a rational)
or one of the three non-finite values.  `Number.isFinite` holds exactly
on the `fin` constructor. -/
inductive JsNum where
  | fin (q : ℚ)
  | nan
  | posInf
  | negInf
deriving DecidableEq, Repr

/-- Embedding of `Number.isFinite`. -/
def JsNum.isFinite : JsNum → Bool
  | .fin _ => true
  | _ => false

/-- Embedding of `Number.prototype.toFixed(2)` for a non-negative
rational: the integer n with n / 100 closest to the input, ties picking
the larger n (round half up), rendered with exactly two digits after the
point. -/
def toFixed2Pos (q : ℚ) : String :=
  let n : ℤ := ⌊q * 100 + 1/2⌋
  let m : ℕ := n.toNat
  toString (m / 100) ++ "." ++ (if m % 100 < 10 then "0" else "") ++ toString (m % 100)

/-- Embedding of `Number.prototype.toFixed(2)`: ECMAScript first splits
off the sign, then rounds the absolute value. -/
def toFixed2 (q : ℚ) : String :=
  if q < 0 then "-" ++ toFixed2Pos (-q) else toFixed2Pos q

/-- Embedding of `formatPct` from src/frontend/src/lending/utils.ts.
`none` models a `null` or `undefined` argument (the `value != null ? Number(value) : 0`
coalescing); non-finite numbers return "0.00"; otherwise the value is
multiplied by 100 exactly when it is below 1 and rendered to two decimals. -/
def formatPct (value : Option JsNum) : String :=
  let n : JsNum := match value with
    | some x => x
    | none => .fin 0
  match n with
  | .fin q => toFixed2 (if q < 1 then q * 100 else q)
  | _ => "0.00"

/-- Embedding of `getPrice` from src/frontend/src/lending/utils.ts:
`p.price ?? p.priceUsd ?? 0`, reading the two optional fields of the
argument object. -/
def getPrice (price priceUsd : Option ℚ) : ℚ :=
  (price.or priceUsd).getD 0

/-- The market record consumed by `getMarketSupplyUsd`: optional
camelCase and snake_case USD totals (which the code checks with
`Number.isFinite`, hence `JsNum`), optional token-amount totals and
optional prices. -/
structure MarketRec where
  totalSupplyUsd : Option JsNum
  total_supply_usd : Option JsNum
  totalSupply : Option ℚ
  totalSupplyUnderlying : Option ℚ
  price : Option ℚ
  priceUsd : Option ℚ
deriving DecidableEq, Repr

/-- Embedding of `getMarketSupplyUsd` from src/frontend/src/lending/utils.ts:
prefers the backend-supplied `totalSupplyUsd ?? total_supply_usd` when it
is present and finite, else falls back to
`(totalSupply ?? totalSupplyUnderlying ?? 0) * getPrice(m)`. -/
def getMarketSupplyUsd (m : MarketRec) : ℚ :=
  match m.totalSupplyUsd.or m.total_supply_usd with
  | some (.fin q) => q
  | _ =>
      let supply : ℚ := (m.totalSupply.or m.totalSupplyUnderlying).getD 0
      supply * getPrice m.price m.priceUsd

/-- Embedding of `formatTvl` from src/frontend/src/lending/utils.ts:
non-finite or negative input yields "$0.00M", otherwise the value is
divided by 1e6 and rendered to two decimals between "$" and "M". -/
def formatTvl (usd : JsNum) : String :=
  match usd with
  | .fin q => if q < 0 then "$0.00M" else "$" ++ toFixed2 (q / 1000000) ++ "M"
  | _ => "$0.00M"

/-- A raw account position as delivered by the backend, before the
camelCase normalization in `getAccount`: optional camelCase and
snake_case balances, optional prices, optional collateral factor. -/
structure RawPosition where
  supplyUnderlying : Option ℚ
  supply_underlying : Option ℚ
  borrowBalance : Option ℚ
  borrow_balance : Option ℚ
  price : Option ℚ
  priceUsd : Option ℚ
  collateralFactor : Option ℚ
deriving DecidableEq, Repr

/-- The normalization step of `getAccount`:
`supplyUnderlying: pos.supplyUnderlying ?? pos.supply_underlying ?? 0`
and likewise for `borrowBalance`. -/
def normalizePosition (p : RawPosition) : RawPosition :=
  { p with
    supplyUnderlying := some ((p.supplyUnderlying.or p.supply_underlying).getD 0),
    borrowBalance := some ((p.borrowBalance.or p.borrow_balance).getD 0) }

/-- The per-position price resolution used inside `getAccount`:
`pos.price ?? pos.priceUsd ?? 0`. -/
def posPrice (p : RawPosition) : ℚ :=
  (p.price.or p.priceUsd).getD 0

/-- The backend response consumed by `getAccount`: the positions array
plus optional `liquidityUsd` / `liquidity` fields. -/
structure AccountResponse where
  positions : List RawPosition
  liquidityUsd : Option ℚ
  liquidity : Option ℚ
deriving DecidableEq, Repr

/-- The derived fields `getAccount` adds to the response. -/
structure AccountData where
  positions : List RawPosition
  totalSupplied : ℚ
  totalBorrowed : ℚ
  borrowLimit : ℚ
  availableToBorrow : ℚ
deriving DecidableEq, Repr

/-- Embedding of `getAccount` from src/frontend/src/lending/services/api.ts
(the pure computation on the backend response; the HTTP fetch and address
checksumming around it are I/O).  Positions are normalized, the three
reduce-sums are taken, and `borrowLimit` / `availableToBorrow` switch on
whether the backend-supplied `liquidityUsd ?? liquidity` is a positive
number. -/
def getAccount (data : AccountResponse) : AccountData :=
  let positions := data.positions.map normalizePosition
  let totalSupplied :=
    positions.foldl (fun sum pos => sum + (pos.supplyUnderlying.getD 0) * posPrice pos) 0
  let totalBorrowed :=
    positions.foldl (fun sum pos => sum + (pos.borrowBalance.getD 0) * posPrice pos) 0
  let borrowLimitFromPositions :=
    positions.foldl
      (fun sum pos =>
        sum + ((pos.supplyUnderlying.getD 0) * posPrice pos) * (pos.collateralFactor.getD 0)) 0
  let liquidityUsd := data.liquidityUsd.or data.liquidity
  let borrowLimit :=
    match liquidityUsd with
    | some v => if 0 < v then totalBorrowed + v else borrowLimitFromPositions
    | none => borrowLimitFromPositions
  let availableToBorrow :=
    match liquidityUsd with
    | some v => if 0 < v then v else max 0 (borrowLimit - totalBorrowed)
    | none => max 0 (borrowLimit - totalBorrowed)
  { positions := positions
    totalSupplied := totalSupplied
    totalBorrowed := totalBorrowed
    borrowLimit := borrowLimit
    availableToBorrow := availableToBorrow }

/-- Specification-side sum: total borrowed USD as the spec writes it,
a sum over positions of borrowBalance times price. -/
def totalBorrowedSpec (data : AccountResponse) : ℚ :=
  ((data.positions.map normalizePosition).map
    (fun p => (p.borrowBalance.getD 0) * posPrice p)).sum

/-- Specification-side sum: borrow limit as the spec writes it, a sum
over positions of supplyUnderlying times price times collateralFactor. -/
def borrowLimitSpec (data : AccountResponse) : ℚ :=
  ((data.positions.map normalizePosition).map
    (fun p => (p.supplyUnderlying.getD 0) * posPrice p * (p.collateralFactor.getD 0))).sum

/-- Modelled from the spec: a decoded on-chain event as stored by the
Event Store (the backend's event-store code is not under src/; only its
README is).  Identity is the pair (transactionHash, logIndex); the
decoded argument payload is kept opaque as a string. -/
structure Event where
  contractAddress : String
  eventName : String
  blockNumber : ℕ
  transactionHash : String
  logIndex : ℕ
  decodedArgs : String
  timestamp : ℕ
deriving DecidableEq, Repr

/-- The identity key of an event: (transactionHash, logIndex). -/
def eventKey (e : Event) : String × ℕ :=
  (e.transactionHash, e.logIndex)

/-- Whether some stored event already carries the given identity key. -/
def keyMem (k : String × ℕ) (stored : List Event) : Bool :=
  stored.any (fun e0 => decide (eventKey e0 = k))

/-- Modelled from the spec: the Event Store's durable state — the
append-only event table plus the single checkpoint record
`lastProcessedBlock` (backend code not under src/). -/
structure StoreState where
  events : List Event
  lastProcessedBlock : ℕ
deriving DecidableEq, Repr

/-- The error taxonomy entries of the spec that the Event Store can
raise. -/
inductive StoreError where
  | NonMonotonic
deriving DecidableEq, Repr

/-- Modelled from the spec: `setCheckpoint(uint64) -> void` fails with
`NonMonotonic` if the new value is less than the current one, and
otherwise stores the new value (backend code not under src/). -/
def setCheckpoint (s : StoreState) (v : ℕ) : Except StoreError StoreState :=
  if v < s.lastProcessedBlock then .error .NonMonotonic
  else .ok { s with lastProcessedBlock := v }

/-- One checkpoint-setting cycle, successful or failed: a failed
`setCheckpoint` leaves the store unchanged. -/
def applyCheckpointOp (s : StoreState) (v : ℕ) : StoreState :=
  match setCheckpoint s v with
  | .ok s1 => s1
  | .error _ => s

/-- Modelled from the spec: inserting a single event is idempotent per
(transactionHash, logIndex) — re-inserting an already-stored identity is
a silent no-op, never an error (backend code not under src/). -/
def insertOne (stored : List Event) (e : Event) : List Event :=
  if keyMem (eventKey e) stored then stored else stored ++ [e]

/-- Modelled from the spec: `insert(events: sequence<Event>) -> void`,
inserting a batch event by event (backend code not under src/). -/
def insertEvents (stored : List Event) (es : List Event) : List Event :=
  es.foldl insertOne stored

/-- The chain's events falling in the block range [a, b]. -/
def eventsInRange (chain : List Event) (a b : ℕ) : List Event :=
  chain.filter (fun e => decide (a ≤ e.blockNumber) && decide (e.blockNumber ≤ b))

/-- Modelled from the spec: indexing the block range [a, b] — persist
all decoded events of the range in one write, then advance the
checkpoint to the top of the range (backend code not under src/). -/
def indexRange (chain : List Event) (a b : ℕ) (s : StoreState) : StoreState :=
  applyCheckpointOp { s with events := insertEvents s.events (eventsInRange chain a b) } b

/-- Modelled from the spec and the backend README: the default initial
lookback window of 2000 blocks (the README's latest-2000 note; backend
code not under src/). -/
def initialLookback : ℕ := 2000

/-- Modelled from the spec: the first-run checkpoint, latest block minus
the lookback window; natural subtraction clamps at 0 (backend code not
under src/). -/
def initCheckpoint (latest lookback : ℕ) : ℕ :=
  latest - lookback

/-- Modelled from the spec: the liquidity-mining stake record
`(stakedAmount, accruedReward, lastUpdateTimestamp)` together with the
pool's reward rate in force (backend code not under src/). -/
structure Stake where
  stakedAmount : ℚ
  accruedReward : ℚ
  lastUpdateTimestamp : ℚ
  rewardRatePerSecond : ℚ
deriving DecidableEq, Repr

/-- Modelled from the spec: accrue rewards up to time t,
`accruedReward += stakedAmount * rewardRatePerSecond * elapsedSeconds`
since `lastUpdateTimestamp` (backend code not under src/). -/
def accrueTo (s : Stake) (t : ℚ) : Stake :=
  { s with
    accruedReward :=
      s.accruedReward + s.stakedAmount * s.rewardRatePerSecond * (t - s.lastUpdateTimestamp)
    lastUpdateTimestamp := t }

/-- Modelled from the spec: a RateUpdated event observed at time t first
closes the running sub-interval at the old rate, then switches to the
new rate — rate changes are never retroactive (backend code not under
src/). -/
def rateUpdated (s : Stake) (t newRate : ℚ) : Stake :=
  { accrueTo s t with rewardRatePerSecond := newRate }

/-- A left fold accumulating sums equals the initial value plus the sum
of the mapped list. -/
theorem foldl_add_map_sum {α : Type} (f : α → ℚ) :
    ∀ (l : List α) (a : ℚ), l.foldl (fun s x => s + f x) a = a + (l.map f).sum := by
  intro l
  induction l with
  | nil => intro a; simp
  | cons x xs ih =>
      intro a
      rw [List.foldl_cons, ih, List.map_cons, List.sum_cons]
      ring

/-- Claim C1: for every account response, the returned availableToBorrow
equals max(0, borrowLimit - totalBorrowed) computed from the same
response, in both the positive-liquidity branch and the fallback
branch. -/
theorem availableToBorrow_eq_max (data : AccountResponse) :
    (getAccount data).availableToBorrow =
      max 0 ((getAccount data).borrowLimit - (getAccount data).totalBorrowed) := by
  rcases h : data.liquidityUsd.or data.liquidity with _ | v
  · simp [getAccount, h]
  · by_cases hv : 0 < v
    · simp only [getAccount, h]
      simp only [hv, if_true]
      rw [add_sub_cancel_left, max_eq_right hv.le]
    · simp [getAccount, h, hv]

/-- Concrete response used to refute claim C2: one position supplying 1
unit at price 1 with collateral factor 1/2, no borrows, and a backend
liquidity of 2. -/
def dataC2 : AccountResponse :=
  { positions :=
      [{ supplyUnderlying := some 1
         supply_underlying := none
         borrowBalance := some 0
         borrow_balance := none
         price := some 1
         priceUsd := none
         collateralFactor := some (1/2) }]
    liquidityUsd := some 2
    liquidity := none }

/-- Claim C2 counterexample: with positive backend liquidity 2 the
returned borrowLimit is totalBorrowed + liquidity = 2, not the
positions-based sum 1 * 1 * (1/2) = 1/2, so the borrow limit does depend
on the reported liquidity value. -/
theorem borrowLimit_counterexample :
    (getAccount dataC2).borrowLimit ≠ borrowLimitSpec dataC2 := by
  norm_num [getAccount, dataC2, borrowLimitSpec, normalizePosition, posPrice]

/-- Claim C2 (amended): total borrowed USD always equals the sum over
positions of borrowBalance times price; the borrow limit equals the sum
over positions of supplyUnderlying times price times collateralFactor
exactly when the backend liquidity is absent or non-positive, and when
the backend liquidity is a positive number v the returned borrow limit
is totalBorrowed + v instead. -/
theorem borrowLimit_branches_spec (data : AccountResponse) :
    (getAccount data).totalBorrowed = totalBorrowedSpec data ∧
    ((∀ v : ℚ, data.liquidityUsd.or data.liquidity = some v → v ≤ 0) →
      (getAccount data).borrowLimit = borrowLimitSpec data) ∧
    (∀ v : ℚ, data.liquidityUsd.or data.liquidity = some v → 0 < v →
      (getAccount data).borrowLimit = (getAccount data).totalBorrowed + v) := by
  refine ⟨?_, fun h => ?_, fun v hv hpos => ?_⟩
  · simp only [getAccount, totalBorrowedSpec]
    rw [foldl_add_map_sum (fun p => (p.borrowBalance.getD 0) * posPrice p)]
    ring
  · rcases hl : data.liquidityUsd.or data.liquidity with _ | v
    · simp only [getAccount, hl, borrowLimitSpec]
      rw [foldl_add_map_sum
        (fun p => (p.supplyUnderlying.getD 0) * posPrice p * (p.collateralFactor.getD 0))]
      ring
    · have hvle : ¬ 0 < v := not_lt.mpr (h v hl)
      simp only [getAccount, hl, hvle, if_false, borrowLimitSpec]
      rw [foldl_add_map_sum
        (fun p => (p.supplyUnderlying.getD 0) * posPrice p * (p.collateralFactor.getD 0))]
      ring
  · simp only [getAccount, hv, hpos, if_true]

/-- Concrete response with no backend liquidity, used to instantiate the
amended claim C2. -/
def dataC2w : AccountResponse :=
  { positions :=
      [{ supplyUnderlying := some 1
         supply_underlying := none
         borrowBalance := some 3
         borrow_balance := none
         price := some 1
         priceUsd := none
         collateralFactor := some (1/2) }]
    liquidityUsd := none
    liquidity := none }

/-- Witness for the amended claim C2: the fallback branch at a concrete
response with the liquidity fields absent, and the positive-liquidity
branch at the concrete response reporting liquidity 2. -/
theorem borrowLimit_branches_spec_witness :
    ((getAccount dataC2w).totalBorrowed = totalBorrowedSpec dataC2w ∧
     (getAccount dataC2w).borrowLimit = borrowLimitSpec dataC2w) ∧
    (dataC2.liquidityUsd.or dataC2.liquidity = some 2 ∧ (0 : ℚ) < 2 ∧
     (getAccount dataC2).borrowLimit = (getAccount dataC2).totalBorrowed + 2) :=
  ⟨⟨(borrowLimit_branches_spec dataC2w).1,
    (borrowLimit_branches_spec dataC2w).2.1 (by intro v hv; simp [dataC2w] at hv)⟩,
   ⟨rfl, by norm_num,
    (borrowLimit_branches_spec dataC2).2.2 2 rfl (by norm_num)⟩⟩

/-- Concrete position with 5 supplied units and no price field at all,
used for claim C3. -/
def posC3 : RawPosition :=
  { supplyUnderlying := some 5
    supply_underlying := none
    borrowBalance := some 0
    borrow_balance := none
    price := none
    priceUsd := none
    collateralFactor := some 1 }

/-- Claim C3 counterexample: a position whose price is missing does not
make the computation fail — getPrice resolves the missing price to 0 and
getAccount succeeds, valuing the 5 supplied units at 0 in the totals,
so the missing value is silently replaced by zero rather than raising
InvalidInput. -/
theorem missingPrice_counterexample :
    getPrice none none = 0 ∧
    (getAccount { positions := [posC3], liquidityUsd := none, liquidity := none
      }).totalSupplied = 0 := by
  constructor
  · rfl
  · norm_num [getAccount, posC3, normalizePosition, posPrice]

/-- Claim C3 (amended): a missing price is silently replaced by zero —
getPrice returns 0 when both price fields are absent; getAccount values
every price-less position at zero, so a response whose positions all
lack prices yields totalSupplied = 0 and totalBorrowed = 0; and a market
with no backend USD figure and no price is valued at 0 by
getMarketSupplyUsd.  The computations are total and no InvalidInput
failure is raised. -/
theorem missingPrice_silently_zeroed (p : RawPosition)
    (h1 : p.price = none) (h2 : p.priceUsd = none) (data : AccountResponse)
    (hall : ∀ q ∈ data.positions, q.price = none ∧ q.priceUsd = none) :
    getPrice p.price p.priceUsd = 0 ∧
    posPrice p = 0 ∧
    (getAccount data).totalSupplied = 0 ∧
    (getAccount data).totalBorrowed = 0 ∧
    (∀ m : MarketRec, m.totalSupplyUsd = none → m.total_supply_usd = none →
      m.price = none → m.priceUsd = none → getMarketSupplyUsd m = 0) := by
  have hz : ∀ q ∈ data.positions, posPrice (normalizePosition q) = 0 := by
    intro q hq
    obtain ⟨hq1, hq2⟩ := hall q hq
    simp [posPrice, normalizePosition, hq1, hq2]
  have hsum : ∀ f : RawPosition → ℚ,
      ((data.positions.map normalizePosition).map
        (fun np => f np * posPrice np)).sum = 0 := by
    intro f
    apply List.sum_eq_zero
    intro x hx
    obtain ⟨np, hnp, rfl⟩ := List.mem_map.mp hx
    obtain ⟨q, hq, rfl⟩ := List.mem_map.mp hnp
    rw [hz q hq, mul_zero]
  refine ⟨by simp [getPrice, h1, h2], by simp [posPrice, h1, h2], ?_, ?_,
    fun m hm1 hm2 hm3 hm4 => ?_⟩
  · simp only [getAccount]
    rw [foldl_add_map_sum (fun p => (p.supplyUnderlying.getD 0) * posPrice p)]
    rw [hsum (fun np => np.supplyUnderlying.getD 0)]
    ring
  · simp only [getAccount]
    rw [foldl_add_map_sum (fun p => (p.borrowBalance.getD 0) * posPrice p)]
    rw [hsum (fun np => np.borrowBalance.getD 0)]
    ring
  · simp [getMarketSupplyUsd, getPrice, hm1, hm2, hm3, hm4]

/-- Concrete response whose single position lacks a price, used to
instantiate the amended claim C3. -/
def dataC3w : AccountResponse :=
  { positions := [posC3], liquidityUsd := none, liquidity := none }

/-- Concrete market with no backend USD figure and no price, used to
instantiate the amended claim C3. -/
def mC3w : MarketRec :=
  { totalSupplyUsd := none
    total_supply_usd := none
    totalSupply := some 4
    totalSupplyUnderlying := none
    price := none
    priceUsd := none }

/-- Witness for the amended claim C3 at the concrete price-less
position, response and market. -/
theorem missingPrice_silently_zeroed_witness :
    getPrice posC3.price posC3.priceUsd = 0 ∧
    posPrice posC3 = 0 ∧
    (getAccount dataC3w).totalSupplied = 0 ∧
    (getAccount dataC3w).totalBorrowed = 0 ∧
    getMarketSupplyUsd mC3w = 0 := by
  have h := missingPrice_silently_zeroed posC3 rfl rfl dataC3w
    (by intro q hq; rw [dataC3w, List.mem_singleton] at hq; subst hq; exact ⟨rfl, rfl⟩)
  exact ⟨h.1, h.2.1, h.2.2.1, h.2.2.2.1, h.2.2.2.2 mC3w rfl rfl rfl rfl⟩

/-- Concrete market record carrying a backend-supplied USD total of 7
that disagrees with totalSupply * price = 2, used for claim C4. -/
def mC4 : MarketRec :=
  { totalSupplyUsd := some (.fin 7)
    total_supply_usd := none
    totalSupply := some 2
    totalSupplyUnderlying := none
    price := some 1
    priceUsd := none }

/-- Claim C4 counterexample: getMarketSupplyUsd returns the
backend-supplied totalSupplyUsd (7) when it is present and finite, not
total supply times price (2). -/
theorem getMarketSupplyUsd_counterexample :
    getMarketSupplyUsd mC4 ≠ (mC4.totalSupply.getD 0) * getPrice mC4.price mC4.priceUsd := by
  norm_num [getMarketSupplyUsd, mC4, getPrice]

/-- Claim C4 (amended): getMarketSupplyUsd returns the backend-supplied
finite totalSupplyUsd / total_supply_usd directly when one is present;
only when neither is present as a finite number does it equal
(totalSupply ?? totalSupplyUnderlying ?? 0) times the market price. -/
theorem getMarketSupplyUsd_spec (m : MarketRec) :
    (∀ q : ℚ, m.totalSupplyUsd.or m.total_supply_usd = some (JsNum.fin q) →
        getMarketSupplyUsd m = q) ∧
    ((∀ q : ℚ, m.totalSupplyUsd.or m.total_supply_usd ≠ some (JsNum.fin q)) →
        getMarketSupplyUsd m =
          ((m.totalSupply.or m.totalSupplyUnderlying).getD 0) *
            getPrice m.price m.priceUsd) := by
  constructor
  · intro q hq
    simp [getMarketSupplyUsd, hq]
  · intro h
    rcases hm : m.totalSupplyUsd.or m.total_supply_usd with _ | x
    · simp [getMarketSupplyUsd, hm]
    · cases x with
      | fin q => exact absurd hm (h q)
      | nan => simp [getMarketSupplyUsd, hm]
      | posInf => simp [getMarketSupplyUsd, hm]
      | negInf => simp [getMarketSupplyUsd, hm]

/-- Concrete market record with no backend USD totals, used to
instantiate the amended claim C4. -/
def mC4w : MarketRec :=
  { totalSupplyUsd := none
    total_supply_usd := none
    totalSupply := some 3
    totalSupplyUnderlying := none
    price := some 2
    priceUsd := none }

/-- Witness for the amended claim C4 at a concrete record with both USD
fields absent. -/
theorem getMarketSupplyUsd_spec_witness :
    getMarketSupplyUsd mC4w =
      ((mC4w.totalSupply.or mC4w.totalSupplyUnderlying).getD 0) *
        getPrice mC4w.price mC4w.priceUsd :=
  (getMarketSupplyUsd_spec mC4w).2 (by intro q hq; simp [mC4w] at hq)

/-- One checkpoint-setting cycle never lowers the checkpoint. -/
theorem applyCheckpointOp_le (s : StoreState) (v : ℕ) :
    s.lastProcessedBlock ≤ (applyCheckpointOp s v).lastProcessedBlock := by
  unfold applyCheckpointOp setCheckpoint
  by_cases h : v < s.lastProcessedBlock
  · simp [h]
  · simp [h]
    omega

/-- Over any sequence of checkpoint-setting cycles, successful or
failed, the checkpoint never decreases. -/
theorem foldl_checkpoint_mono (vs : List ℕ) :
    ∀ s : StoreState,
      s.lastProcessedBlock ≤ (vs.foldl applyCheckpointOp s).lastProcessedBlock := by
  induction vs with
  | nil => intro s; simp
  | cons v vs ih =>
      intro s
      rw [List.foldl_cons]
      exact le_trans (applyCheckpointOp_le s v) (ih (applyCheckpointOp s v))

/-- Claim C5: setCheckpoint fails with NonMonotonic exactly when the new
value is below the current checkpoint and otherwise stores it, and over
any sequence of successful or failed cycles the checkpoint never
decreases. -/
theorem checkpoint_monotonic (s : StoreState) (v : ℕ) (vs : List ℕ) :
    (v < s.lastProcessedBlock → setCheckpoint s v = .error .NonMonotonic) ∧
    (s.lastProcessedBlock ≤ v →
      setCheckpoint s v = .ok { s with lastProcessedBlock := v }) ∧
    s.lastProcessedBlock ≤ (vs.foldl applyCheckpointOp s).lastProcessedBlock := by
  refine ⟨fun h => ?_, fun h => ?_, foldl_checkpoint_mono vs s⟩
  · simp [setCheckpoint, h]
  · simp [setCheckpoint, not_lt.mpr h]

/-- Witness for claim C5: from checkpoint 5, setting 3 is rejected as
NonMonotonic and setting 7 succeeds. -/
theorem checkpoint_monotonic_witness :
    (3 < 5 ∧ setCheckpoint ⟨[], 5⟩ 3 = .error .NonMonotonic) ∧
    (5 ≤ 7 ∧ setCheckpoint ⟨[], 5⟩ 7 = .ok ⟨[], 7⟩) :=
  ⟨⟨by decide, (checkpoint_monotonic ⟨[], 5⟩ 3 []).1 (by decide)⟩,
   ⟨by decide, (checkpoint_monotonic ⟨[], 5⟩ 7 []).2.1 (by decide)⟩⟩

/-- Re-inserting an event whose identity key is already stored leaves
the store unchanged. -/
theorem insertOne_of_keyMem (stored : List Event) (e : Event)
    (h : keyMem (eventKey e) stored = true) : insertOne stored e = stored := by
  simp [insertOne, h]

/-- Key membership is preserved by inserting more events. -/
theorem keyMem_insertOne_mono (k : String × ℕ) (l : List Event) (e : Event)
    (h : keyMem k l = true) : keyMem k (insertOne l e) = true := by
  unfold insertOne
  split
  · exact h
  · unfold keyMem at h ⊢
    rw [List.any_append]
    simp [h]

/-- After inserting an event, its identity key is stored. -/
theorem keyMem_insertOne_self (l : List Event) (e : Event) :
    keyMem (eventKey e) (insertOne l e) = true := by
  unfold insertOne
  split
  · assumption
  · unfold keyMem
    rw [List.any_append]
    simp

/-- Key membership is preserved by inserting a whole batch. -/
theorem keyMem_insertEvents_mono (k : String × ℕ) (es : List Event) :
    ∀ l : List Event, keyMem k l = true → keyMem k (insertEvents l es) = true := by
  induction es with
  | nil => intro l h; exact h
  | cons x xs ih =>
      intro l h
      rw [insertEvents, List.foldl_cons]
      exact ih (insertOne l x) (keyMem_insertOne_mono k l x h)

/-- Inserting the same batch twice yields the same store as inserting it
once. -/
theorem insertEvents_idem (es : List Event) :
    ∀ l : List Event, insertEvents (insertEvents l es) es = insertEvents l es := by
  induction es with
  | nil => intro l; rfl
  | cons x xs ih =>
      intro l
      have hstep : ∀ l0 : List Event, insertEvents l0 (x :: xs) = insertEvents (insertOne l0 x) xs := by
        intro l0
        rw [insertEvents, List.foldl_cons]
        rfl
      have hx : keyMem (eventKey x) (insertEvents (insertOne l x) xs) = true :=
        keyMem_insertEvents_mono (eventKey x) xs (insertOne l x) (keyMem_insertOne_self l x)
      rw [hstep l, hstep (insertEvents (insertOne l x) xs),
        insertOne_of_keyMem _ _ hx, ih (insertOne l x)]

/-- Explicit form of one indexing pass: the range's events are inserted
and the checkpoint moves to the top of the range unless it is already
beyond it. -/
theorem indexRange_eval (chain : List Event) (a b : ℕ) (s : StoreState) :
    indexRange chain a b s =
      { events := insertEvents s.events (eventsInRange chain a b)
        lastProcessedBlock :=
          if b < s.lastProcessedBlock then s.lastProcessedBlock else b } := by
  unfold indexRange applyCheckpointOp setCheckpoint
  by_cases h : b < s.lastProcessedBlock
  · simp [h]
  · simp [h]

/-- Claim C6: event insertion is idempotent per (transactionHash,
logIndex) — re-inserting a stored event is a silent no-op — and indexing
a block range twice yields the same stored event set and the same
checkpoint as indexing it once. -/
theorem insert_idempotent (stored : List Event) (e : Event)
    (chain : List Event) (a b : ℕ) (s : StoreState) :
    (keyMem (eventKey e) stored = true → insertOne stored e = stored) ∧
    indexRange chain a b (indexRange chain a b s) = indexRange chain a b s := by
  refine ⟨insertOne_of_keyMem stored e, ?_⟩
  rw [indexRange_eval, indexRange_eval]
  simp only [StoreState.mk.injEq, insertEvents_idem]
  by_cases h : b < s.lastProcessedBlock <;> simp [h]

/-- Concrete event used to instantiate claim C6. -/
def eC6 : Event :=
  { contractAddress := "0xmarket"
    eventName := "Mint"
    blockNumber := 12
    transactionHash := "0xabc"
    logIndex := 0
    decodedArgs := "amount=100"
    timestamp := 1700000000 }

/-- Witness for claim C6: re-inserting the already-stored concrete event
is a no-op. -/
theorem insert_idempotent_witness :
    keyMem (eventKey eC6) [eC6] = true ∧ insertOne [eC6] eC6 = [eC6] :=
  ⟨by decide, (insert_idempotent [eC6] eC6 [] 0 0 ⟨[], 0⟩).1 (by decide)⟩

/-- Claim C7: the first-run checkpoint is the latest block number minus
the lookback window, clamped to 0, and the default lookback is 2000
blocks. -/
theorem initCheckpoint_clamped (latest lookback : ℕ) :
    (initCheckpoint latest lookback : ℤ) = max 0 ((latest : ℤ) - (lookback : ℤ)) ∧
    initialLookback = 2000 := by
  refine ⟨?_, rfl⟩
  unfold initCheckpoint
  omega

/-- Claim C8: with 100 units staked at rate r1 from time 0, a
RateUpdated to r2 at time 10, and accrual up to time 15, the accrued
reward is 100*r1*10 + 100*r2*5 — and whenever r1 and r2 differ it is
neither 100*r2*15 nor 100*r1*15. -/
theorem rewardAccrual_split (r1 r2 : ℚ) :
    (accrueTo (rateUpdated ⟨100, 0, 0, r1⟩ 10 r2) 15).accruedReward =
      100 * r1 * 10 + 100 * r2 * 5 ∧
    (r1 ≠ r2 →
      (accrueTo (rateUpdated ⟨100, 0, 0, r1⟩ 10 r2) 15).accruedReward ≠ 100 * r2 * 15 ∧
      (accrueTo (rateUpdated ⟨100, 0, 0, r1⟩ 10 r2) 15).accruedReward ≠ 100 * r1 * 15) := by
  have hval : (accrueTo (rateUpdated ⟨100, 0, 0, r1⟩ 10 r2) 15).accruedReward =
      100 * r1 * 10 + 100 * r2 * 5 := by
    simp only [accrueTo, rateUpdated]
    ring
  refine ⟨hval, fun hne => ⟨?_, ?_⟩⟩
  · rw [hval]
    intro hcontra
    exact hne (by linarith)
  · rw [hval]
    intro hcontra
    exact hne (by linarith)

/-- Witness for claim C8 at the concrete rates r1 = 1 and r2 = 2. -/
theorem rewardAccrual_split_witness :
    (1 : ℚ) ≠ 2 ∧
    (accrueTo (rateUpdated ⟨100, 0, 0, 1⟩ 10 2) 15).accruedReward ≠ 100 * 2 * 15 :=
  ⟨by norm_num, ((rewardAccrual_split 1 2).2 (by norm_num)).1⟩

/-- Claim C9: formatTvl is total; every non-finite or negative input
yields "$0.00M", and every finite non-negative input is divided by 1e6,
rendered to two decimals, and wrapped in "$" and "M". -/
theorem formatTvl_spec (q : ℚ) :
    (0 ≤ q → formatTvl (.fin q) = "$" ++ toFixed2 (q / 1000000) ++ "M") ∧
    (q < 0 → formatTvl (.fin q) = "$0.00M") ∧
    formatTvl .nan = "$0.00M" ∧
    formatTvl .posInf = "$0.00M" ∧
    formatTvl .negInf = "$0.00M" := by
  refine ⟨fun h => ?_, fun h => ?_, rfl, rfl, rfl⟩
  · simp [formatTvl, not_lt.mpr h]
  · simp [formatTvl, h]

/-- Witness for claim C9: 200000000 formats as "$200.00M". -/
theorem formatTvl_spec_witness :
    (0 : ℚ) ≤ 200000000 ∧
    formatTvl (.fin 200000000) = "$" ++ toFixed2 (200000000 / 1000000) ++ "M" ∧
    toFixed2 ((200000000 : ℚ) / 1000000) = "200.00" :=
  ⟨by norm_num, (formatTvl_spec 200000000).1 (by norm_num),
   by unfold toFixed2 toFixed2Pos; norm_num; decide⟩

/-- Claim C10: formatPct yields "0.00" for null, undefined and every
non-finite input; a finite input is multiplied by 100 exactly when it is
below 1 and rendered to two decimals, so 0.5 formats as "50.00" while
1.5 formats as "1.50". -/
theorem formatPct_spec (q : ℚ) :
    (q < 1 → formatPct (some (.fin q)) = toFixed2 (q * 100)) ∧
    (1 ≤ q → formatPct (some (.fin q)) = toFixed2 q) ∧
    formatPct none = "0.00" ∧
    formatPct (some .nan) = "0.00" ∧
    formatPct (some .posInf) = "0.00" ∧
    formatPct (some .negInf) = "0.00" ∧
    formatPct (some (.fin (1/2))) = "50.00" ∧
    formatPct (some (.fin (3/2))) = "1.50" := by
  refine ⟨fun h => ?_, fun h => ?_, ?_, rfl, rfl, rfl, ?_, ?_⟩
  · simp [formatPct, h]
  · simp [formatPct, not_lt.mpr h]
  · show toFixed2 (if (0 : ℚ) < 1 then 0 * 100 else 0) = "0.00"
    norm_num
    unfold toFixed2 toFixed2Pos
    norm_num
    decide
  · show toFixed2 (if (1 : ℚ)/2 < 1 then 1/2 * 100 else 1/2) = "50.00"
    norm_num
    unfold toFixed2 toFixed2Pos
    norm_num
    decide
  · show toFixed2 (if (3 : ℚ)/2 < 1 then 3/2 * 100 else 3/2) = "1.50"
    norm_num
    unfold toFixed2 toFixed2Pos
    norm_num
    decide

/-- Witness for claim C10 at the concrete inputs 1/2 (below 1, scaled by
100) and 3/2 (at least 1, rendered directly). -/
theorem formatPct_spec_witness :
    ((1 : ℚ)/2 < 1 ∧ formatPct (some (.fin (1/2))) = toFixed2 (1/2 * 100)) ∧
    (1 ≤ (3 : ℚ)/2 ∧ formatPct (some (.fin (3/2))) = toFixed2 (3/2)) :=
  ⟨⟨by norm_num, (formatPct_spec (1/2)).1 (by norm_num)⟩,
   ⟨by norm_num, (formatPct_spec (3/2)).2.1 (by norm_num)⟩⟩

end Defi
